import Mathlib

/-!
Shallow embedding of the two source files of the
`vietnamese-sign-language-translator` repository:

* `src/data/datasets.py` — `SignLanguageDataset.load_video`: the frame
  sampler that reads a video through a `cv2.VideoCapture`, keeps every
  `frame_step`-th decoded frame (converted BGR→RGB and permuted from
  H×W×C to C×H×W), releases the capture, pads with `torch.zeros_like`
  copies of the last retained frame up to `num_frames`, and stacks the
  buffer into a tensor.

* `src/data/raw/web_scraping.py` — `extract_region_from_url` (the regex
  search `/videos/D\d{4}([BTN])\.mp4`) and `process_data` (the pandas
  post-processing that builds the `Video URL`, `Region` and `Label`
  columns and sorts by `Text`).

Modelling choices:
* a decoded video frame is an H×W grid of pixels; cv2 decodes pixels in
  BGR channel order, so a native pixel is a record with fields `b`, `g`,
  `r`; tensors are nested lists; pixel values are `Nat` (exact for the
  uint8 range, and `.float()` is exact on that range);
* a Python exception is the `Except.error` branch (`load_video` has no
  `return None` statement: its only failure modes are the `IndexError`
  from `frames[-1]` on an empty buffer and the `RuntimeError` from
  `torch.stack([])`);
* Python strings are `List Char`; `\d` is matched as an ASCII digit.
-/

deriving instance DecidableEq for Except

namespace VSLT

/-- A pixel as decoded by `cv2.VideoCapture.read`: cv2 decodes frames in
BGR channel order, so the native channel order is blue, green, red. -/
structure Pixel where
  b : Nat
  g : Nat
  r : Nat
  deriving DecidableEq

/-- A native decoded frame: H rows of W pixels, channel-last (H×W×C). -/
abbrev NativeFrame := List (List Pixel)

/-- A frame of the output clip: C×H×W nested lists of pixel values. -/
abbrev Frame := List (List (List Nat))

/-- `cv2.cvtColor(frame, cv2.COLOR_BGR2RGB)`: the same H×W grid with each
pixel written channel-last in RGB order `[r, g, b]`. -/
def cvtColor_BGR2RGB (fr : NativeFrame) : List (List (List Nat)) :=
  fr.map (fun row => row.map (fun px => [px.r, px.g, px.b]))

/-- `torch.tensor(frame).permute(2, 0, 1)` on the H×W×3 tensor produced by
the colour conversion: the C×H×W tensor whose plane `c` holds channel `c`
of every pixel (the decoded frames always have exactly 3 channels). -/
def permute_2_0_1 (t : List (List (List Nat))) : List (List (List Nat)) :=
  (List.range 3).map (fun c => t.map (fun row => row.map (fun px => px.getD c 0)))

/-- Lines 96–98 of `datasets.py`: BGR→RGB conversion followed by the
H×W×C → C×H×W permutation (`.float()` is exact on uint8 values). -/
def convertFrame (fr : NativeFrame) : Frame :=
  permute_2_0_1 (cvtColor_BGR2RGB fr)

/-- `torch.zeros_like`: an all-zero tensor of the same shape. -/
def zeros_like (fr : Frame) : Frame :=
  fr.map (fun ch => ch.map (fun row => row.map (fun _ => 0)))

/-- The state of a `cv2.VideoCapture`: the frames not yet decoded, and
whether `release` has been called. -/
structure VideoCapture where
  toDecode : List NativeFrame
  released : Bool
  deriving DecidableEq

/-- `cv2.VideoCapture(video_path)`: a fresh, unreleased handle positioned
at the start of the decoded frame sequence of the video. -/
def cv2_VideoCapture (src : List NativeFrame) : VideoCapture :=
  { toDecode := src, released := false }

/-- `cap.release()`. -/
def VideoCapture.release (cap : VideoCapture) : VideoCapture :=
  { cap with released := true }

/-- The exceptions `load_video` can raise: the `IndexError` from
`frames[-1]` on an empty list, the `RuntimeError` from `torch.stack([])`. -/
inductive PyError where
  | indexError
  | runtimeError
  deriving DecidableEq

/-- The `while` loop of `load_video` (lines 89–100): as long as the buffer
holds fewer than `num_frames` frames, read the next frame (stopping when
the source is exhausted), retain it when `frame_count % frame_step == 0`
after BGR→RGB conversion and permutation, and increment `frame_count`
after every decoded frame.  Returns the buffer and the frames left
undecoded in the capture. -/
def sampleLoop (num_frames frame_step : Nat) :
    List NativeFrame → Nat → List Frame → List Frame × List NativeFrame
  | src, frame_count, frames =>
    if frames.length < num_frames then
      match src with
      | [] => (frames, [])
      | f :: rest =>
          sampleLoop num_frames frame_step rest (frame_count + 1)
            (if frame_count % frame_step == 0 then frames ++ [convertFrame f]
             else frames)
    else (frames, src)

/-- The padding loop of `load_video` (lines 106–107): `k` times, append
`torch.zeros_like(frames[-1])`; `frames[-1]` on an empty list raises
`IndexError`. -/
def padLoop : Nat → List Frame → Except PyError (List Frame)
  | 0, frames => Except.ok frames
  | k + 1, frames =>
    match frames.getLast? with
    | none => Except.error PyError.indexError
    | some last => padLoop k (frames ++ [zeros_like last])

/-- `torch.stack(frames)` (line 109): stacks a non-empty list of frames
into a T×C×H×W clip; raises `RuntimeError` on an empty list. -/
def torch_stack (frames : List Frame) : Except PyError (List Frame) :=
  if frames.isEmpty then Except.error PyError.runtimeError else Except.ok frames

/-- `SignLanguageDataset.load_video` (lines 75–109): open a capture on the
video, run the sampling loop, release the capture, pad the buffer with
zero frames when it is short, and stack it.  Returns the clip (or the
raised exception) together with the final capture state. -/
def load_video (num_frames frame_step : Nat) (src : List NativeFrame) :
    Except PyError (List Frame) × VideoCapture :=
  let cap := cv2_VideoCapture src
  let res := sampleLoop num_frames frame_step cap.toDecode 0 []
  let frames := res.1
  let cap2 := VideoCapture.release { toDecode := res.2, released := cap.released }
  let padded :=
    if frames.length < num_frames then padLoop (num_frames - frames.length) frames
    else Except.ok frames
  (padded.bind torch_stack, cap2)

example :
    (load_video 2 1 [[[⟨1, 2, 3⟩]], [[⟨4, 5, 6⟩]]]).1 =
      Except.ok [[[[3]], [[2]], [[1]]], [[[6]], [[5]], [[4]]]] := by decide

example : (load_video 13 4 ([] : List NativeFrame)).1 =
    Except.error PyError.indexError := by decide

example : (load_video 13 4 ([] : List NativeFrame)).2.released = true := by decide

example :
    (load_video 3 2 [[[⟨1, 1, 1⟩]], [[⟨2, 2, 2⟩]], [[⟨3, 3, 3⟩]]]).1 =
      Except.ok [[[[1]], [[1]], [[1]]], [[[3]], [[3]], [[3]]],
        [[[0]], [[0]], [[0]]]] := by decide

/-! ### Embedding of `src/data/raw/web_scraping.py` -/

/-- Strip a literal character sequence from the front of a string: `some`
with the remainder when the string starts with the literal, else `none`. -/
def dropLit : List Char → List Char → Option (List Char)
  | [], s => some s
  | _ :: _, [] => none
  | p :: ps, c :: cs => if c = p then dropLit ps cs else none

/-- Match the regex `/videos/D\d{4}([BTN])\.mp4` against the start of the
string: the literal `/videos/D`, four ASCII digits, one of `B`, `T`, `N`
(the captured group), the literal `.mp4`.  Returns the captured letter. -/
def matchAt (s : List Char) : Option Char :=
  match dropLit "/videos/D".toList s with
  | none => none
  | some s1 =>
    match s1 with
    | d1 :: d2 :: d3 :: d4 :: c :: rest =>
        if d1.isDigit && d2.isDigit && d3.isDigit && d4.isDigit &&
            (c == 'B' || c == 'T' || c == 'N') then
          match dropLit ".mp4".toList rest with
          | some _ => some c
          | none => none
        else none
    | _ => none

/-- `re.search`: try the pattern at every position, left to right, and
return the captured group of the leftmost match. -/
def regionSearch : List Char → Option Char
  | [] => none
  | c :: rest =>
    match matchAt (c :: rest) with
    | some l => some l
    | none => regionSearch rest

/-- `extract_region_from_url` (lines 203–213):
`re.search(r'/videos/D\d{4}([BTN])\.mp4', video_url)`, returning the
captured region letter, or `None` when there is no match. -/
def extract_region_from_url (video_url : List Char) : Option Char :=
  regionSearch video_url

example : extract_region_from_url "https://qipedc.moet.gov.vn/videos/D0001B.mp4".toList
    = some 'B' := by decide
example : extract_region_from_url "/videos/D1234N.mp4?autoplay=true".toList
    = some 'N' := by decide
example : extract_region_from_url "/videos/D123N.mp4".toList = none := by decide
example : extract_region_from_url "/videos/D12345.mp4".toList = none := by decide
example : extract_region_from_url "/thumbs/D1234T.mp4".toList = none := by decide

/-- A row of the scraped CSV: the `Text` and `Video` columns. -/
structure ScrapedRow where
  text : List Char
  video : List Char
  deriving DecidableEq

/-- A row of the DataFrame produced by `process_data`: the `Text`,
`Video URL`, `Region` and `Label` columns. -/
structure ProcessedRow where
  text : List Char
  videoURL : List Char
  region : Option Char
  label : List Char
  deriving DecidableEq

/-- The column transformations of `process_data` (lines 189–196), applied
to one row (every column operation used — string concatenation, `apply`,
`str.replace`, `fillna` — acts element-wise on the rows):
`Video URL = 'https://qipedc.moet.gov.vn' + Video`,
`Region = extract_region_from_url(Video URL)`,
`Label = Text.replace(' ', '_') + Region.fillna('')`. -/
def processRow (r : ScrapedRow) : ProcessedRow :=
  let url := "https://qipedc.moet.gov.vn".toList ++ r.video
  let region := extract_region_from_url url
  let label := r.text.map (fun ch => if ch = ' ' then '_' else ch) ++
    (match region with | some c => [c] | none => [])
  { text := r.text, videoURL := url, region := region, label := label }

/-- Lexicographic comparison of strings, used to model the row order of
`df.sort_values('Text')`. -/
def textLe : List Char → List Char → Bool
  | [], _ => true
  | _ :: _, [] => false
  | a :: as, b :: bs => if a = b then textLe as bs else decide (a < b)

/-- Insert an element into a sorted list. -/
def insertSorted (x : ProcessedRow) : List ProcessedRow → List ProcessedRow
  | [] => [x]
  | y :: ys => if textLe x.text y.text then x :: y :: ys else y :: insertSorted x ys

/-- `df.sort_values('Text')` (line 199): reorder the rows by the `Text`
column (a sort; the claims only depend on it permuting the rows). -/
def sortByText (rows : List ProcessedRow) : List ProcessedRow :=
  rows.foldr insertSorted []

/-- `process_data` (lines 179–201): rename `Video` to `Video URL` and make
it absolute, derive the `Region` column, derive the `Label` column, and
sort the rows by `Text`. -/
def process_data (table : List ScrapedRow) : List ProcessedRow :=
  sortByText (table.map processRow)

example :
    process_data [⟨"xin chào".toList, "/videos/D0001B.mp4".toList⟩] =
      [⟨"xin chào".toList,
        "https://qipedc.moet.gov.vn/videos/D0001B.mp4".toList,
        some 'B', "xin_chàoB".toList⟩] := by decide

example :
    process_data [⟨"b".toList, "/v.mp4".toList⟩, ⟨"a".toList, "/w.mp4".toList⟩] =
      [⟨"a".toList, "https://qipedc.moet.gov.vn/w.mp4".toList, none, "a".toList⟩,
       ⟨"b".toList, "https://qipedc.moet.gov.vn/v.mp4".toList, none, "b".toList⟩] := by
  decide

/-! ### Characterisation of the sampling loop -/

/-- The frames the loop retains, starting from decode counter `fc`: those
whose counter value is divisible by `frame_step`. -/
def keepIdx (frame_step : Nat) : Nat → List NativeFrame → List NativeFrame
  | _, [] => []
  | fc, f :: rest =>
    if fc % frame_step == 0 then f :: keepIdx frame_step (fc + 1) rest
    else keepIdx frame_step (fc + 1) rest

/-- The frames `load_video` retains: the strided sub-sequence of the
source, converted, truncated to the first `num_frames`. -/
def realFrames (num_frames frame_step : Nat) (src : List NativeFrame) : List Frame :=
  ((keepIdx frame_step 0 src).map convertFrame).take num_frames

theorem sampleLoop_fst (nf fs : Nat) :
    ∀ (src : List NativeFrame) (fc : Nat) (acc : List Frame),
      (sampleLoop nf fs src fc acc).1 =
        acc ++ ((keepIdx fs fc src).map convertFrame).take (nf - acc.length) := by
  intro src
  induction src with
  | nil =>
      intro fc acc
      rw [sampleLoop]
      by_cases h : acc.length < nf <;> simp [h, keepIdx]
  | cons f rest ih =>
      intro fc acc
      rw [sampleLoop]
      by_cases h : acc.length < nf
      · simp only [if_pos h]
        by_cases hm : fc % fs = 0
        · have hsub : nf - acc.length = (nf - (acc.length + 1)) + 1 := by omega
          simp only [hm, keepIdx, beq_self_eq_true, if_pos, ih]
          simp [hsub, List.take_succ_cons]
        · have hbeq : (fc % fs == 0) = false := by simp [hm]
          simp [hbeq, keepIdx, ih]
      · have hz : nf - acc.length = 0 := by omega
        simp [h, hz]

theorem keepIdx_period (fs : Nat) :
    ∀ (src : List NativeFrame) (fc : Nat),
      keepIdx fs (fc + fs) src = keepIdx fs fc src := by
  intro src
  induction src with
  | nil => intro fc; rfl
  | cons f rest ih =>
      intro fc
      have h1 : (fc + fs) % fs = fc % fs := Nat.add_mod_right fc fs
      have h2 : fc + fs + 1 = (fc + 1) + fs := by omega
      simp only [keepIdx, h1, h2, ih]

theorem keepIdx_shift (fs : Nat) :
    ∀ (src : List NativeFrame) (fc : Nat), 0 < fc → fc ≤ fs →
      keepIdx fs fc src = keepIdx fs 0 (src.drop (fs - fc)) := by
  intro src
  induction src with
  | nil => intro fc _ _; simp [keepIdx]
  | cons f rest ih =>
      intro fc hpos hle
      rcases Nat.lt_or_ge fc fs with hlt | hge
      · have hm : fc % fs = fc := Nat.mod_eq_of_lt hlt
        have hne : ¬ ((fc % fs == 0) = true) := by simp [hm]; omega
        have hdrop : fs - fc = (fs - (fc + 1)) + 1 := by omega
        simp only [keepIdx]
        rw [if_neg hne, ih (fc + 1) (by omega) (by omega), hdrop,
          List.drop_succ_cons]
      · have hfc : fc = fs := by omega
        rw [hfc, Nat.sub_self, List.drop_zero]
        simp only [keepIdx]
        rw [if_pos (by simp [Nat.mod_self]), if_pos (by simp)]
        rw [show fs + 1 = 1 + fs by omega, keepIdx_period fs rest 1]

theorem keepIdx_cons (fs : Nat) (hfs : 0 < fs) (x : NativeFrame)
    (r : List NativeFrame) :
    keepIdx fs 0 (x :: r) = x :: keepIdx fs 0 (r.drop (fs - 1)) := by
  simp only [keepIdx]
  rw [if_pos (by simp), keepIdx_shift fs r 1 (by omega) hfs]

/-- Retained frame `i` is the source frame at decode position
`i * frame_step`. -/
theorem keepIdx_getElem? (fs : Nat) (hfs : 0 < fs) :
    ∀ (i : Nat) (src : List NativeFrame),
      (keepIdx fs 0 src)[i]? = src[i * fs]? := by
  intro i
  induction i with
  | zero =>
      intro src
      cases src with
      | nil => simp [keepIdx]
      | cons x r => rw [keepIdx_cons fs hfs]; simp
  | succ i ih =>
      intro src
      cases src with
      | nil => simp [keepIdx]
      | cons x r =>
          rw [keepIdx_cons fs hfs]
          have hidx : (i + 1) * fs = ((fs - 1) + i * fs) + 1 := by
            have : (i + 1) * fs = i * fs + fs := Nat.succ_mul i fs
            omega
          simp only [List.getElem?_cons_succ, ih, List.getElem?_drop, hidx]

theorem keepIdx_subset (fs : Nat) :
    ∀ (src : List NativeFrame) (fc : Nat) (x : NativeFrame),
      x ∈ keepIdx fs fc src → x ∈ src := by
  intro src
  induction src with
  | nil => intro fc x h; simp [keepIdx] at h
  | cons f rest ih =>
      intro fc x h
      simp only [keepIdx] at h
      by_cases hm : (fc % fs == 0) = true
      · rw [if_pos hm] at h
        rcases List.mem_cons.mp h with rfl | h2
        · exact List.mem_cons_self x rest
        · exact List.mem_cons_of_mem f (ih (fc + 1) x h2)
      · rw [if_neg hm] at h
        exact List.mem_cons_of_mem f (ih (fc + 1) x h)

theorem loopFrames_eq (nf fs : Nat) (src : List NativeFrame) :
    (sampleLoop nf fs src 0 []).1 = realFrames nf fs src := by
  simpa [realFrames] using sampleLoop_fst nf fs src 0 []

theorem zeros_like_idem (fr : Frame) :
    zeros_like (zeros_like fr) = zeros_like fr := by
  simp [zeros_like, List.map_map, Function.comp]

/-- The padding loop always succeeds on a non-empty buffer and appends
`k` all-zero copies shaped like the buffer's last frame. -/
theorem padLoop_spec :
    ∀ (k : Nat) (frames : List Frame) (last : Frame),
      frames.getLast? = some last →
      padLoop k frames = Except.ok (frames ++ List.replicate k (zeros_like last)) := by
  intro k
  induction k with
  | zero => intro frames last _; simp [padLoop]
  | succ k ih =>
      intro frames last hlast
      simp only [padLoop, hlast]
      rw [ih (frames ++ [zeros_like last]) (zeros_like last)
        (List.getLast?_concat ..)]
      rw [zeros_like_idem, List.append_assoc, List.replicate_succ ..,
        List.singleton_append]

theorem torch_stack_ok (frames : List Frame) (h : frames ≠ []) :
    torch_stack frames = Except.ok frames := by
  simp [torch_stack, List.isEmpty_iff, h]

theorem realFrames_length (nf fs : Nat) (src : List NativeFrame) :
    (realFrames nf fs src).length = min nf (keepIdx fs 0 src).length := by
  simp [realFrames]

theorem realFrames_getElem? (nf fs : Nat) (hfs : 0 < fs) (src : List NativeFrame)
    (j : Nat) (hj : j < nf) :
    (realFrames nf fs src)[j]? = (src[j * fs]?).map convertFrame := by
  rw [realFrames, List.getElem?_take, if_pos hj, List.getElem?_map,
    keepIdx_getElem? fs hfs]

theorem keepIdx_length_ge (fs : Nat) (hfs : 0 < fs) (src : List NativeFrame)
    (n : Nat) (hn : 0 < n) (h : (n - 1) * fs < src.length) :
    n ≤ (keepIdx fs 0 src).length := by
  by_contra hlt
  push_neg at hlt
  have h1 : (keepIdx fs 0 src)[n - 1]? = none :=
    List.getElem?_eq_none_iff.mpr (by omega)
  rw [keepIdx_getElem? fs hfs] at h1
  have h2 : src[(n - 1) * fs]? = some (src.get ⟨(n - 1) * fs, h⟩) :=
    List.getElem?_eq_getElem h
  rw [h1] at h2
  exact Option.noConfusion h2

/-- `load_video` unfolded: the clip is the retained buffer, padded when
short, then stacked; the capture always ends released. -/
theorem load_video_eq (nf fs : Nat) (src : List NativeFrame) :
    load_video nf fs src =
      ((if (realFrames nf fs src).length < nf
          then padLoop (nf - (realFrames nf fs src).length) (realFrames nf fs src)
          else Except.ok (realFrames nf fs src)).bind torch_stack,
        ⟨(sampleLoop nf fs src 0 []).2, true⟩) := by
  simp only [load_video, cv2_VideoCapture, VideoCapture.release, loopFrames_eq]

/-- Shared core for the sufficiency claims: as soon as decode position
`(num_frames - 1) * frame_step` exists in the source, the loop fills the
whole buffer with real frames and no padding happens. -/
theorem load_video_enough_aux (nf fs : Nat) (src : List NativeFrame)
    (hnf : 0 < nf) (hfs : 0 < fs) (hlen : (nf - 1) * fs < src.length) :
    ∃ clip, (load_video nf fs src).1 = Except.ok clip ∧ clip.length = nf ∧
      ∀ i, i < nf → clip[i]? = (src[i * fs]?).map convertFrame := by
  have hk : nf ≤ (keepIdx fs 0 src).length :=
    keepIdx_length_ge fs hfs src nf hnf hlen
  have hF : (realFrames nf fs src).length = nf := by
    rw [realFrames_length]; omega
  have hne : realFrames nf fs src ≠ [] := by
    intro he; rw [he] at hF; simp at hF; omega
  refine ⟨realFrames nf fs src, ?_, hF, ?_⟩
  · rw [load_video_eq]
    simp only [hF, Nat.lt_irrefl, if_false, Except.bind]
    exact torch_stack_ok _ hne
  · intro i hi
    exact realFrames_getElem? nf fs hfs src i hi

theorem realFrames_ne_nil (nf fs : Nat) (src : List NativeFrame)
    (hnf : 0 < nf) (hfs : 0 < fs) (hsrc : src ≠ []) :
    realFrames nf fs src ≠ [] := by
  cases src with
  | nil => exact absurd rfl hsrc
  | cons x r =>
      intro he
      have h0 : (realFrames nf fs (x :: r))[0]? = ((x :: r)[0 * fs]?).map convertFrame :=
        realFrames_getElem? nf fs hfs (x :: r) 0 hnf
      rw [he] at h0
      simp at h0

/-! ### Witness inputs: small concrete sources -/

/-- A one-frame source of 1×1 frames. -/
def srcW1 : List NativeFrame := [[[⟨10, 20, 30⟩]]]

/-- A four-frame source of 1×1 frames. -/
def srcW4 : List NativeFrame :=
  [[[⟨0, 0, 1⟩]], [[⟨0, 0, 2⟩]], [[⟨0, 0, 3⟩]], [[⟨0, 0, 4⟩]]]

/-- A ten-frame source of 1×1 frames. -/
def srcW10 : List NativeFrame :=
  (List.range 10).map (fun k => [[⟨k, k + 1, k + 2⟩]])

/-! ### The claims -/

/-- C1 (amended): for every configuration with `num_frames > 0` and
`frame_step > 0` and every source that yields at least one decodable
frame, `load_video` returns a clip of exactly `num_frames` frames without
raising: the retained frames come from decode positions
`0, frame_step, 2·frame_step, …` and the deficit is filled with all-zero
frames shaped like the last retained frame.  (As stated over *every*
source the claim is false: on a source with zero decodable frames the
code raises `IndexError`, see the counterexample.) -/
theorem load_video_pads_to_num_frames (nf fs : Nat) (src : List NativeFrame)
    (hnf : 0 < nf) (hfs : 0 < fs) (hsrc : src ≠ []) :
    ∃ clip realPart last,
      (load_video nf fs src).1 = Except.ok clip ∧
      clip.length = nf ∧
      realPart ≠ [] ∧ realPart.length ≤ nf ∧
      (∀ j, j < realPart.length → realPart[j]? = (src[j * fs]?).map convertFrame) ∧
      realPart.getLast? = some last ∧
      clip = realPart ++ List.replicate (nf - realPart.length) (zeros_like last) := by
  have hFne : realFrames nf fs src ≠ [] := realFrames_ne_nil nf fs src hnf hfs hsrc
  have hFle : (realFrames nf fs src).length ≤ nf := by
    rw [realFrames_length]; omega
  obtain ⟨last, hlast⟩ :=
    Option.isSome_iff_exists.mp (List.getLast?_isSome.mpr hFne)
  have key : (load_video nf fs src).1 =
      Except.ok (realFrames nf fs src ++
        List.replicate (nf - (realFrames nf fs src).length)
          (zeros_like last)) := by
    rw [load_video_eq]
    by_cases hlen : (realFrames nf fs src).length < nf
    · rw [if_pos hlen, padLoop_spec _ _ _ hlast]
      simp only [Except.bind]
      exact torch_stack_ok _ (by simp [hFne])
    · rw [if_neg hlen]
      have h0 : nf - (realFrames nf fs src).length = 0 := by omega
      rw [h0]
      simp only [List.replicate, List.append_nil, Except.bind]
      exact torch_stack_ok _ hFne
  refine ⟨_, realFrames nf fs src, last, key, ?_, hFne, hFle, ?_, hlast, rfl⟩
  · simp only [List.length_append, List.length_replicate]
    omega
  · intro j hj
    exact realFrames_getElem? nf fs hfs src j (by omega)

/-- C1 witness: the amended claim at a concrete one-frame source. -/
theorem load_video_pads_to_num_frames_witness :
    0 < 13 ∧ 0 < 4 ∧ srcW1 ≠ [] ∧
      (∃ clip realPart last,
        (load_video 13 4 srcW1).1 = Except.ok clip ∧
        clip.length = 13 ∧
        realPart ≠ [] ∧ realPart.length ≤ 13 ∧
        (∀ j, j < realPart.length →
          realPart[j]? = (srcW1[j * 4]?).map convertFrame) ∧
        realPart.getLast? = some last ∧
        clip = realPart ++ List.replicate (13 - realPart.length) (zeros_like last)) :=
  ⟨by decide, by decide, by decide,
    load_video_pads_to_num_frames 13 4 srcW1 (by decide) (by decide) (by decide)⟩

/-- C1 counterexample: with `num_frames = 13 > 0` and `frame_step = 4 > 0`
but a source of zero decodable frames, `load_video` raises `IndexError`
instead of returning a clip — so the claim's "never raises an error
regardless of source length" is false as stated. -/
theorem load_video_raises_on_empty_source :
    0 < 13 ∧ 0 < 4 ∧
      (load_video 13 4 ([] : List NativeFrame)).1 =
        Except.error PyError.indexError := by
  refine ⟨by decide, by decide, by decide⟩

/-- C2: whenever the source yields at least `num_frames * frame_step`
decodable frames, `load_video` returns a clip of exactly `num_frames`
frames; frame `i` of the clip is the (converted) source frame of decode
position `i * frame_step`, so the retained decode positions are distinct
and consecutive retained frames are exactly `frame_step` apart. -/
theorem load_video_full_source (nf fs : Nat) (src : List NativeFrame)
    (hnf : 0 < nf) (hfs : 0 < fs) (hlen : nf * fs ≤ src.length) :
    ∃ clip, (load_video nf fs src).1 = Except.ok clip ∧ clip.length = nf ∧
      ∀ i, i < nf → clip[i]? = (src[i * fs]?).map convertFrame := by
  apply load_video_enough_aux nf fs src hnf hfs
  have h1 : (nf - 1) * fs = nf * fs - fs := by
    rw [Nat.sub_mul, Nat.one_mul]
  have h2 : fs ≤ nf * fs := Nat.le_mul_of_pos_left fs hnf
  omega

/-- C2 witness: a 4-frame source with `num_frames = 2`, `frame_step = 2`. -/
theorem load_video_full_source_witness :
    0 < 2 ∧ 0 < 2 ∧ 2 * 2 ≤ srcW4.length ∧
      (∃ clip, (load_video 2 2 srcW4).1 = Except.ok clip ∧ clip.length = 2 ∧
        ∀ i, i < 2 → clip[i]? = (srcW4[i * 2]?).map convertFrame) :=
  ⟨by decide, by decide, by decide,
    load_video_full_source 2 2 srcW4 (by decide) (by decide) (by decide)⟩

/-- C3: with `num_frames = 13`, `frame_step = 4` and a source of exactly
10 decodable frames, the retained frames are decode positions 0, 4, 8;
the clip has 13 frames, positions 0–2 are those frames in decode order,
and positions 3–12 are all-zero frames shaped like the frame of decode
position 8. -/
theorem load_video_scenario_13_4_10 (src : List NativeFrame)
    (hlen : src.length = 10) :
    ∃ clip, (load_video 13 4 src).1 = Except.ok clip ∧ clip.length = 13 ∧
      clip[0]? = (src[0]?).map convertFrame ∧
      clip[1]? = (src[4]?).map convertFrame ∧
      clip[2]? = (src[8]?).map convertFrame ∧
      ∀ i, 3 ≤ i → i < 13 →
        clip[i]? = (src[8]?).map (fun f => zeros_like (convertFrame f)) := by
  have hfs : (0 : Nat) < 4 := by omega
  have h8 : (8 : Nat) < src.length := by omega
  obtain ⟨s8, hs8⟩ : ∃ a, src[8]? = some a :=
    ⟨src.get ⟨8, h8⟩, List.getElem?_eq_getElem h8⟩
  -- the loop retains exactly 3 frames
  have hk3 : (keepIdx 4 0 src).length = 3 := by
    have ha : (keepIdx 4 0 src)[2]? = src[8]? := by
      have := keepIdx_getElem? 4 hfs 2 src
      norm_num at this
      exact this
    have hb : (keepIdx 4 0 src)[3]? = src[12]? := by
      have := keepIdx_getElem? 4 hfs 3 src
      norm_num at this
      exact this
    rw [hs8] at ha
    have hb2 : src[12]? = none := List.getElem?_eq_none_iff.mpr (by omega)
    rw [hb2] at hb
    have hle : (keepIdx 4 0 src).length ≤ 3 := List.getElem?_eq_none_iff.mp hb
    have hgt : 2 < (keepIdx 4 0 src).length := by
      by_contra hc
      push_neg at hc
      have hn : (keepIdx 4 0 src)[2]? = none :=
        List.getElem?_eq_none_iff.mpr (by omega)
      rw [hn] at ha
      exact Option.noConfusion ha
    omega
  have hF : (realFrames 13 4 src).length = 3 := by
    rw [realFrames_length, hk3]; decide
  have hFne : realFrames 13 4 src ≠ [] := by
    intro he; rw [he] at hF; simp at hF
  have hF2 : (realFrames 13 4 src)[2]? = some (convertFrame s8) := by
    have := realFrames_getElem? 13 4 hfs src 2 (by omega)
    norm_num at this
    rw [this, hs8]
    rfl
  have hlast : (realFrames 13 4 src).getLast? = some (convertFrame s8) := by
    rw [List.getLast?_eq_getElem? .., hF]
    exact hF2
  have key : (load_video 13 4 src).1 =
      Except.ok (realFrames 13 4 src ++
        List.replicate 10 (zeros_like (convertFrame s8))) := by
    rw [load_video_eq, if_pos (by omega), padLoop_spec _ _ _ hlast, hF]
    simp only [Except.bind]
    exact torch_stack_ok _ (by simp [hFne])
  refine ⟨_, key, ?_, ?_, ?_, ?_, ?_⟩
  · simp only [List.length_append, List.length_replicate, hF]
  · rw [List.getElem?_append, if_pos (by omega)]
    have := realFrames_getElem? 13 4 hfs src 0 (by omega)
    norm_num at this
    exact this
  · rw [List.getElem?_append, if_pos (by omega)]
    have := realFrames_getElem? 13 4 hfs src 1 (by omega)
    norm_num at this
    exact this
  · rw [List.getElem?_append, if_pos (by omega), hs8]
    exact hF2
  · intro i h3 h13
    rw [List.getElem?_append, if_neg (by omega), hF,
      List.getElem?_replicate, if_pos (by omega), hs8]
    rfl

/-- C3 witness: the scenario at a concrete ten-frame source. -/
theorem load_video_scenario_13_4_10_witness :
    srcW10.length = 10 ∧
      (∃ clip, (load_video 13 4 srcW10).1 = Except.ok clip ∧ clip.length = 13 ∧
        clip[0]? = (srcW10[0]?).map convertFrame ∧
        clip[1]? = (srcW10[4]?).map convertFrame ∧
        clip[2]? = (srcW10[8]?).map convertFrame ∧
        ∀ i, 3 ≤ i → i < 13 →
          clip[i]? = (srcW10[8]?).map (fun f => zeros_like (convertFrame f))) :=
  ⟨by decide, load_video_scenario_13_4_10 srcW10 (by decide)⟩

/-- C4: on every exit path — normal completion, exhaustion (padding), or
the `IndexError` raised while padding — the `cv2.VideoCapture` handle is
released when `load_video` ends: `cap.release()` (line 102) runs
unconditionally after the read loop, and the only failure the code can
raise occurs after it. -/
theorem load_video_releases_capture (nf fs : Nat) (src : List NativeFrame) :
    (load_video nf fs src).2.released = true := rfl

/-- C6: sampling is deterministic.  The embedding of `load_video` is a
pure function of the configuration and of the sequence of frames the
source decodes (the code reads no clock, randomness or global state), so
two calls over sources that decode the same frame sequence return
bit-identical results. -/
theorem load_video_deterministic (nf fs : Nat)
    (src₁ src₂ : List NativeFrame) (h : src₁ = src₂) :
    (load_video nf fs src₁).1 = (load_video nf fs src₂).1 ∧
      (load_video nf fs src₁).2 = (load_video nf fs src₂).2 := by
  rw [h]; exact ⟨rfl, rfl⟩

/-- C6 witness: two runs over the same concrete source. -/
theorem load_video_deterministic_witness :
    srcW10 = srcW10 ∧
      ((load_video 13 4 srcW10).1 = (load_video 13 4 srcW10).1 ∧
        (load_video 13 4 srcW10).2 = (load_video 13 4 srcW10).2) :=
  ⟨rfl, load_video_deterministic 13 4 srcW10 srcW10 rfl⟩

/-- C9: on a source that yields zero decodable frames and any
configuration with `num_frames > 0`, `load_video` raises (`frames[-1]`
on the empty buffer is an `IndexError`); it does not return a short
clip, a default-shaped zero clip, or `None`. -/
theorem load_video_empty_source_raises (nf fs : Nat) (hnf : 0 < nf) :
    (load_video nf fs []).1 = Except.error PyError.indexError := by
  rw [load_video_eq]
  have h : realFrames nf fs ([] : List NativeFrame) = [] := by
    simp [realFrames, keepIdx]
  rw [h]
  simp only [List.length_nil, Nat.sub_zero]
  rw [if_pos (by omega)]
  obtain ⟨m, rfl⟩ : ∃ m, nf = m + 1 := ⟨nf - 1, by omega⟩
  simp [padLoop, Except.bind]

/-- C9 witness: the default configuration on an empty source. -/
theorem load_video_empty_source_raises_witness :
    0 < 13 ∧
      (load_video 13 4 ([] : List NativeFrame)).1 =
        Except.error PyError.indexError :=
  ⟨by decide, load_video_empty_source_raises 13 4 (by decide)⟩

/-- C10: a source with at least `(num_frames - 1) * frame_step + 1`
decodable frames already yields `num_frames` real retained frames and no
zero padding — a requirement no stronger than (and for
`frame_step ≥ 2` strictly weaker than) the `num_frames * frame_step`
bound the spec states, because the loop stops reading as soon as the
buffer is full. -/
theorem load_video_weaker_bound (nf fs : Nat) (src : List NativeFrame)
    (hnf : 0 < nf) (hfs : 0 < fs)
    (hlen : (nf - 1) * fs + 1 ≤ src.length) :
    ((nf - 1) * fs + 1 ≤ nf * fs) ∧
      ∃ clip, (load_video nf fs src).1 = Except.ok clip ∧ clip.length = nf ∧
        ∀ i, i < nf → clip[i]? = (src[i * fs]?).map convertFrame := by
  have h1 : (nf - 1) * fs = nf * fs - fs := by
    rw [Nat.sub_mul, Nat.one_mul]
  have h2 : fs ≤ nf * fs := Nat.le_mul_of_pos_left fs hnf
  exact ⟨by omega, load_video_enough_aux nf fs src hnf hfs (by omega)⟩

/-- C10 witness: `num_frames = 2`, `frame_step = 2` on a three-frame
prefix of the four-frame source (`(2-1)*2+1 = 3 ≤ 4` frames suffice,
while `2*2 = 4` is not needed). -/
theorem load_video_weaker_bound_witness :
    0 < 2 ∧ 0 < 2 ∧ (2 - 1) * 2 + 1 ≤ srcW4.length ∧
      (((2 - 1) * 2 + 1 ≤ 2 * 2) ∧
        ∃ clip, (load_video 2 2 srcW4).1 = Except.ok clip ∧ clip.length = 2 ∧
          ∀ i, i < 2 → clip[i]? = (srcW4[i * 2]?).map convertFrame) :=
  ⟨by decide, by decide, by decide,
    load_video_weaker_bound 2 2 srcW4 (by decide) (by decide) (by decide)⟩

theorem convertFrame_planes (g : NativeFrame) :
    convertFrame g =
      [g.map (fun row => row.map Pixel.r),
       g.map (fun row => row.map Pixel.g),
       g.map (fun row => row.map Pixel.b)] := by
  have h3 : List.range 3 = [0, 1, 2] := rfl
  simp only [convertFrame, permute_2_0_1, cvtColor_BGR2RGB, h3, List.map_cons,
    List.map_nil, List.map_map]
  refine List.cons_eq_cons.mpr ⟨?_, List.cons_eq_cons.mpr ⟨?_,
    List.cons_eq_cons.mpr ⟨?_, rfl⟩⟩⟩ <;>
    · apply List.map_congr_left
      intro row _
      simp [Function.comp, List.map_map]

/-- A successful `load_video` call returns the retained buffer followed by
zero copies of its last frame. -/
theorem load_video_ok_clip (nf fs : Nat) (src : List NativeFrame)
    (clip : List Frame) (h : (load_video nf fs src).1 = Except.ok clip) :
    ∃ last, (realFrames nf fs src).getLast? = some last ∧
      clip = realFrames nf fs src ++
        List.replicate (nf - (realFrames nf fs src).length) (zeros_like last) := by
  rw [load_video_eq] at h
  by_cases hF : realFrames nf fs src = []
  · exfalso
    rw [hF] at h
    simp only [List.length_nil, Nat.sub_zero] at h
    by_cases hnf : 0 < nf
    · rw [if_pos hnf] at h
      obtain ⟨m, rfl⟩ : ∃ m, nf = m + 1 := ⟨nf - 1, by omega⟩
      simp [padLoop, Except.bind] at h
    · rw [if_neg hnf] at h
      simp [Except.bind, torch_stack, List.isEmpty_iff] at h
  · obtain ⟨last, hlast⟩ :=
      Option.isSome_iff_exists.mp (List.getLast?_isSome.mpr hF)
    refine ⟨last, hlast, ?_⟩
    by_cases hlen : (realFrames nf fs src).length < nf
    · rw [if_pos hlen, padLoop_spec _ _ _ hlast] at h
      simp only [Except.bind] at h
      rw [torch_stack_ok _ (by simp [hF])] at h
      exact (Except.ok.inj h).symm
    · rw [if_neg hlen] at h
      simp only [Except.bind] at h
      rw [torch_stack_ok _ hF] at h
      have h0 : nf - (realFrames nf fs src).length = 0 := by omega
      rw [h0, List.replicate, List.append_nil]
      exact (Except.ok.inj h).symm

/-- C5: every frame of a clip returned by `load_video` has
channel-then-height-then-width axis order with RGB channel order: each
frame is either the conversion of a source frame (whose plane 0 is the
red channel, plane 1 the green channel, plane 2 the blue channel of the
BGR-native pixels) or an all-zero copy of such a conversion. -/
theorem load_video_frames_chw_rgb (nf fs : Nat) (src : List NativeFrame)
    (clip : List Frame) (h : (load_video nf fs src).1 = Except.ok clip) :
    (∀ fr ∈ clip, ∃ g ∈ src,
        fr = convertFrame g ∨ fr = zeros_like (convertFrame g)) ∧
      ∀ g : NativeFrame,
        convertFrame g =
          [g.map (fun row => row.map Pixel.r),
           g.map (fun row => row.map Pixel.g),
           g.map (fun row => row.map Pixel.b)] := by
  refine ⟨?_, convertFrame_planes⟩
  obtain ⟨last, hlast, hclip⟩ := load_video_ok_clip nf fs src clip h
  have memF : ∀ fr ∈ realFrames nf fs src, ∃ g ∈ src, fr = convertFrame g := by
    intro fr hfr
    have hfr2 : fr ∈ (keepIdx fs 0 src).map convertFrame :=
      List.take_subset _ _ hfr
    obtain ⟨g, hg, hfg⟩ := List.mem_map.mp hfr2
    exact ⟨g, keepIdx_subset fs src 0 g hg, hfg.symm⟩
  intro fr hfr
  rw [hclip] at hfr
  rcases List.mem_append.mp hfr with hfr | hfr
  · obtain ⟨g, hg, hfg⟩ := memF fr hfr
    exact ⟨g, hg, Or.inl hfg⟩
  · have hzl : fr = zeros_like last := List.eq_of_mem_replicate hfr
    obtain ⟨g, hg, hfg⟩ := memF last (List.mem_of_mem_getLast? hlast)
    exact ⟨g, hg, Or.inr (by rw [hzl, hfg])⟩

/-- C5 witness: the single-frame source, whose 1×1 BGR pixel (10, 20, 30)
becomes the C×H×W frame with planes red 30, green 20, blue 10. -/
theorem load_video_frames_chw_rgb_witness :
    (load_video 1 1 srcW1).1 = Except.ok [[[[30]], [[20]], [[10]]]] ∧
      ((∀ fr ∈ ([[[[30]], [[20]], [[10]]]] : List Frame),
          ∃ g ∈ srcW1, fr = convertFrame g ∨ fr = zeros_like (convertFrame g)) ∧
        ∀ g : NativeFrame,
          convertFrame g =
            [g.map (fun row => row.map Pixel.r),
             g.map (fun row => row.map Pixel.g),
             g.map (fun row => row.map Pixel.b)]) :=
  ⟨by decide, load_video_frames_chw_rgb 1 1 srcW1 [[[[30]], [[20]], [[10]]]]
    (by decide)⟩

/-! ### Characterisation of the region regex -/

theorem dropLit_eq_some :
    ∀ (p s r : List Char), dropLit p s = some r ↔ s = p ++ r := by
  intro p
  induction p with
  | nil => intro s r; simp [dropLit]
  | cons p ps ih =>
      intro s r
      cases s with
      | nil => simp [dropLit]
      | cons c cs =>
          simp only [dropLit]
          by_cases hc : c = p
          · subst hc
            rw [if_pos rfl, ih cs r]
            simp
          · rw [if_neg hc]
            simp [hc]

/-- The string has the shape the regex `/videos/D\d{4}([BTN])\.mp4`
requires somewhere, with `c` the captured letter. -/
def hasRegionMatch (s : List Char) (c : Char) : Prop :=
  ∃ a d1 d2 d3 d4 b,
    s = a ++ "/videos/D".toList ++ [d1, d2, d3, d4, c] ++ ".mp4".toList ++ b ∧
    d1.isDigit = true ∧ d2.isDigit = true ∧ d3.isDigit = true ∧
    d4.isDigit = true ∧ (c = 'B' ∨ c = 'T' ∨ c = 'N')

theorem matchAt_some_iff (s : List Char) (c : Char) :
    matchAt s = some c ↔ ∃ d1 d2 d3 d4 rest,
      s = "/videos/D".toList ++ [d1, d2, d3, d4, c] ++ ".mp4".toList ++ rest ∧
      d1.isDigit = true ∧ d2.isDigit = true ∧ d3.isDigit = true ∧
      d4.isDigit = true ∧ (c = 'B' ∨ c = 'T' ∨ c = 'N') := by
  constructor
  · intro h
    rcases hdrop : dropLit "/videos/D".toList s with _ | s1
    · simp only [matchAt, hdrop] at h
      exact Option.noConfusion h
    · simp only [matchAt, hdrop] at h
      rcases s1 with _ | ⟨d1, _ | ⟨d2, _ | ⟨d3, _ | ⟨d4, _ | ⟨cc, rest⟩⟩⟩⟩⟩ <;>
        simp only at h <;> try exact Option.noConfusion h
      by_cases hb : (d1.isDigit && d2.isDigit && d3.isDigit && d4.isDigit &&
          (cc == 'B' || cc == 'T' || cc == 'N')) = true
      · rw [if_pos hb] at h
        rcases hdrop2 : dropLit ".mp4".toList rest with _ | rest2
        · simp only [hdrop2] at h
          exact Option.noConfusion h
        · simp only [hdrop2] at h
          have hcc : cc = c := Option.some.inj h
          subst hcc
          rw [dropLit_eq_some] at hdrop hdrop2
          subst hdrop2
          refine ⟨d1, d2, d3, d4, rest2, ?_, ?_⟩
          · rw [hdrop]; simp [List.append_assoc]
          · simp only [Bool.and_eq_true, Bool.or_eq_true, beq_iff_eq] at hb
            tauto
      · rw [if_neg hb] at h; exact Option.noConfusion h
  · rintro ⟨d1, d2, d3, d4, rest, hs, h1, h2, h3, h4, hc⟩
    subst hs
    have hdrop : dropLit "/videos/D".toList
        ("/videos/D".toList ++ [d1, d2, d3, d4, c] ++ ".mp4".toList ++ rest) =
        some ([d1, d2, d3, d4, c] ++ ".mp4".toList ++ rest) := by
      rw [dropLit_eq_some]; simp [List.append_assoc]
    have hb : (d1.isDigit && d2.isDigit && d3.isDigit && d4.isDigit &&
        (c == 'B' || c == 'T' || c == 'N')) = true := by
      simp only [Bool.and_eq_true, Bool.or_eq_true, beq_iff_eq]
      tauto
    have hdrop2 : dropLit ".mp4".toList (".mp4".toList ++ rest) = some rest :=
      (dropLit_eq_some ..).mpr rfl
    simp only [matchAt, hdrop, List.cons_append, List.nil_append, hdrop2,
      if_pos hb]

theorem regionSearch_some (s : List Char) (c : Char)
    (h : regionSearch s = some c) : hasRegionMatch s c := by
  induction s with
  | nil => simp [regionSearch] at h
  | cons x rest ih =>
      rcases hm : matchAt (x :: rest) with _ | l
      · simp only [regionSearch, hm] at h
        obtain ⟨a, d1, d2, d3, d4, b, hs, hrest⟩ := ih h
        refine ⟨x :: a, d1, d2, d3, d4, b, ?_, hrest⟩
        rw [hs]
        simp [List.cons_append, List.append_assoc]
      · simp only [regionSearch, hm] at h
        have hl : l = c := Option.some.inj h
        subst hl
        obtain ⟨d1, d2, d3, d4, rest2, hs, hrest⟩ := (matchAt_some_iff _ _).mp hm
        exact ⟨[], d1, d2, d3, d4, rest2, by simpa using hs, hrest⟩

theorem regionSearch_of_matchAt (s : List Char) (c : Char)
    (hm : matchAt s = some c) : ∃ c2, regionSearch s = some c2 := by
  cases s with
  | nil =>
      have hnone : matchAt [] = none := by decide
      rw [hnone] at hm
      exact Option.noConfusion hm
  | cons y ys => exact ⟨c, by simp only [regionSearch, hm]⟩

theorem regionSearch_of_match (s : List Char) (c : Char)
    (h : hasRegionMatch s c) : ∃ c2, regionSearch s = some c2 := by
  obtain ⟨a, d1, d2, d3, d4, b, hs, h1, h2, h3, h4, hc⟩ := h
  subst hs
  induction a with
  | nil =>
      rw [List.nil_append]
      apply regionSearch_of_matchAt _ c
      rw [matchAt_some_iff]
      exact ⟨d1, d2, d3, d4, b, rfl, h1, h2, h3, h4, hc⟩
  | cons x a2 ih =>
      have hg : (x :: a2) ++ "/videos/D".toList ++ [d1, d2, d3, d4, c] ++
          ".mp4".toList ++ b =
          x :: (a2 ++ "/videos/D".toList ++ [d1, d2, d3, d4, c] ++
            ".mp4".toList ++ b) := by
        simp [List.cons_append, List.append_assoc]
      rw [hg]
      rcases hm : matchAt (x :: (a2 ++ "/videos/D".toList ++ [d1, d2, d3, d4, c] ++
          ".mp4".toList ++ b)) with _ | l
      · obtain ⟨c2, hc2⟩ := ih
        exact ⟨c2, by simp only [regionSearch, hm]; exact hc2⟩
      · exact ⟨l, by simp only [regionSearch, hm]⟩

/-- C7: `extract_region_from_url` returns a letter exactly when the URL
contains a segment matching `/videos/D`, four digits, one of `B`, `T`,
`N`, `.mp4`; the returned letter is one of `B`, `T`, `N` and is the
captured letter of such a segment; on every URL with no such segment it
returns `None`. -/
theorem extract_region_characterisation (url : List Char) :
    (∀ c, extract_region_from_url url = some c →
      (c = 'B' ∨ c = 'T' ∨ c = 'N') ∧ hasRegionMatch url c) ∧
    (extract_region_from_url url = none → ∀ c, ¬ hasRegionMatch url c) := by
  constructor
  · intro c h
    have hmatch := regionSearch_some url c h
    refine ⟨?_, hmatch⟩
    obtain ⟨a, d1, d2, d3, d4, b, hs, h1, h2, h3, h4, hletter⟩ := hmatch
    exact hletter
  · intro h c hmatch
    obtain ⟨c2, hc2⟩ := regionSearch_of_match url c hmatch
    rw [extract_region_from_url] at h
    rw [h] at hc2
    exact Option.noConfusion hc2

/-- C7 witness: the characterisation applied to a concrete matching URL. -/
theorem extract_region_characterisation_witness :
    ('B' = 'B' ∨ 'B' = 'T' ∨ 'B' = 'N') ∧
      hasRegionMatch "https://qipedc.moet.gov.vn/videos/D0001B.mp4".toList 'B' :=
  (extract_region_characterisation
    "https://qipedc.moet.gov.vn/videos/D0001B.mp4".toList).1 'B' (by decide)

/-! ### The row contract of `process_data` -/

theorem insertSorted_perm (x : ProcessedRow) :
    ∀ (l : List ProcessedRow), (insertSorted x l).Perm (x :: l) := by
  intro l
  induction l with
  | nil => exact List.Perm.refl _
  | cons y ys ih =>
      simp only [insertSorted]
      by_cases hle : textLe x.text y.text = true
      · rw [if_pos hle]
      · rw [if_neg hle]
        exact (ih.cons y).trans (List.Perm.swap x y ys)

theorem sortByText_perm (l : List ProcessedRow) : (sortByText l).Perm l := by
  induction l with
  | nil => exact List.Perm.refl _
  | cons x xs ih =>
      simp only [sortByText, List.foldr_cons]
      exact (insertSorted_perm x _).trans (ih.cons x)

/-- C8: for every row of the scraped table, `process_data` produces the
row obtained from it — it appears among the output rows — and that row's
`Video URL` is the absolute URL `'https://qipedc.moet.gov.vn' + Video`
and its `Label` is the row's `Text` with every space replaced by an
underscore followed by the derived region code (and followed by nothing
when no region code was derived). -/
theorem process_data_rows (table : List ScrapedRow) (r : ScrapedRow)
    (h : r ∈ table) :
    processRow r ∈ process_data table ∧
      (processRow r).videoURL = "https://qipedc.moet.gov.vn".toList ++ r.video ∧
      (processRow r).label = r.text.map (fun ch => if ch = ' ' then '_' else ch) ++
        (match extract_region_from_url
            ("https://qipedc.moet.gov.vn".toList ++ r.video) with
          | some c => [c]
          | none => []) := by
  refine ⟨?_, rfl, rfl⟩
  exact (sortByText_perm (table.map processRow)).mem_iff.mpr
    (List.mem_map.mpr ⟨r, h, rfl⟩)

/-- C8 witness: a one-row table whose text contains a space and whose
video path matches the region pattern. -/
theorem process_data_rows_witness :
    (⟨"xin chào".toList, "/videos/D0001B.mp4".toList⟩ : ScrapedRow) ∈
        [(⟨"xin chào".toList, "/videos/D0001B.mp4".toList⟩ : ScrapedRow)] ∧
      (processRow ⟨"xin chào".toList, "/videos/D0001B.mp4".toList⟩ ∈
          process_data [⟨"xin chào".toList, "/videos/D0001B.mp4".toList⟩] ∧
        (processRow ⟨"xin chào".toList, "/videos/D0001B.mp4".toList⟩).videoURL =
          "https://qipedc.moet.gov.vn".toList ++ "/videos/D0001B.mp4".toList ∧
        (processRow ⟨"xin chào".toList, "/videos/D0001B.mp4".toList⟩).label =
          "xin chào".toList.map (fun ch => if ch = ' ' then '_' else ch) ++
            (match extract_region_from_url
                ("https://qipedc.moet.gov.vn".toList ++
                  "/videos/D0001B.mp4".toList) with
              | some c => [c]
              | none => [])) :=
  ⟨by decide,
    process_data_rows [⟨"xin chào".toList, "/videos/D0001B.mp4".toList⟩]
      ⟨"xin chào".toList, "/videos/D0001B.mp4".toList⟩ (by decide)⟩

end VSLT
